import Mathlib

/-!
Verification of the reool connection pool core.

The definitions below are a shallow embedding of the Rust sources:

* `src/pool/inner_pool.rs` — the arbitration core (`InnerPool`, `Waiting`,
  `check_in`, `check_out`, `remove_conn`, the counter updates of the
  `notify_*` methods);
* `src/pool/mod.rs` — the `Managed` handle, its destructor routing, and the
  connection-creation loop `create_new_managed`;
* `src/pools/pool_per_node/inner.rs` — the multi-node fan-out
  (`Inner::new`, `Inner::check_out_explicit_timeout`);
* `src/pools/shared_pool/mod.rs`, `src/pools/single_pool/mod.rs` — the
  constructors and their initialization checks;
* `src/lib.rs` — the `RedisPool` facade;
* `src/error.rs` — the checkout error kinds.

Modelling conventions: `Instant` timestamps and `Duration` values are natural
numbers; connection values are opaque, so a `Managed` carries only whether its
value is present (`value = value.is_some()`); the `usize` atomic counters are
embedded as `Int` — in every reachable state they are provably non-negative
and far below `2 ^ 64`, so `Int` addition and subtraction agree with the
wrapping `fetch_add` / `fetch_sub` on `AtomicUsize`.
-/

namespace Reool

/-- The checkout error kinds of `CheckoutErrorKind` (`src/error.rs` lines
29-49) together with the `QueueLimitReached` kind that
`InnerPool::check_out` (`src/pool/inner_pool.rs` line 111) returns when the
wait queue is full. -/
inductive ErrorKind
  | noConnection
  | checkoutTimeout
  | reservationLimitReached
  | noPool
  | checkoutLimitReached
  | taskExecution
  | queueLimitReached
deriving Repr, DecidableEq

/-- `Managed<T>` (`src/pool/mod.rs` lines 349-355): the handle wrapping a
connection. `value` models `value.is_some()`; the pool never inspects the
connection itself. -/
structure Managed where
  created_at : Nat
  checked_out_at : Option Nat
  value : Bool
  marked_for_kill : Bool
deriving Repr, DecidableEq

/-- `Managed::fresh` (`src/pool/mod.rs` lines 358-366). -/
def Managed.fresh (createdAt : Nat) : Managed :=
  { created_at := createdAt
    checked_out_at := none
    value := true
    marked_for_kill := false }

/-- `Waiting<T>` (`src/pool/inner_pool.rs` lines 221-224). A `checkout`
waiter carries a oneshot sender and its enqueue time; the `alive` flag models
whether the receiver is still alive, i.e. whether `sender.send` would succeed
if the waiter were fulfilled now. `reducePoolSize` is the sentinel pushed by
`remove_conn`. -/
inductive Waiting
  | checkout (alive : Bool) (waiting_since : Nat)
  | reducePoolSize
deriving Repr, DecidableEq

/-- Dropping the receiver of a checkout waiter (caller abandoned the
checkout future, e.g. on timeout): the eventual `send` will fail. -/
def Waiting.abandon : Waiting → Waiting
  | .checkout _ t => .checkout false t
  | .reducePoolSize => .reducePoolSize

/-- Waiters that are checkout waiters whose receiver is gone. -/
def Waiting.isDeadCheckout : Waiting → Bool
  | .checkout false _ => true
  | _ => false

/-- The state of one `InnerPool<T>` (`src/pool/inner_pool.rs` lines 17-30):
the mutex-protected `SyncCore` fields `idle` and `waiting`, the atomic
counters `pool_size` and `in_flight_connections`, and the configured
`wait_queue_limit`. The gauge atomics `waiting_for_checkout` and
`idle_connections` mirror `waiting.len()` and `idle.len()` and are omitted.
`out` is not a field of the Rust struct: it models the handles currently
owned by callers (delivered by a checkout or a fulfilled waiter and not yet
returned through the `Managed` destructor). -/
structure InnerPool where
  idle : List Managed
  waiting : List Waiting
  pool_size : Int
  in_flight : Int
  wait_queue_limit : Option Nat
  out : List Managed
deriving Repr, DecidableEq

/-- `Vec::pop`: removes and returns the last element. `idle` is a `Vec`, so
both insertion (`push`) and removal (`pop`) happen at the back. -/
def vecPop {α : Type} (xs : List α) : Option (List α × α) :=
  match xs.getLast? with
  | none => none
  | some x => some (xs.dropLast, x)

/-- Outcome of the waiter-fulfillment loop of `check_in`. -/
inductive FulfillOutcome
  | delivered (m : Managed) (rest : List Waiting)
  | consumed (rest : List Waiting)
  | exhausted (m : Managed)
deriving Repr, DecidableEq

/-- The `while let Some(one_waiting) = core.waiting.pop_front()` loop of
`check_in` (`src/pool/inner_pool.rs` lines 74-81) combined with
`Waiting::fulfill` (lines 237-259). `fulfill` first sets
`checked_out_at = Some(now)`; an alive checkout waiter then receives the
handle (`delivered`), a dead one resets `checked_out_at` to `None` and hands
the handle back for the next waiter, and a `ReducePoolSize` sentinel resets
`checked_out_at`, marks the handle for kill and consumes it (`consumed`).
If the queue runs out the handle is left over (`exhausted`). -/
def fulfillLoop (m : Managed) (now : Nat) : List Waiting → FulfillOutcome
  | [] => .exhausted m
  | w :: rest =>
    match w with
    | .checkout true _ => .delivered { m with checked_out_at := some now } rest
    | .checkout false _ => fulfillLoop { m with checked_out_at := none } now rest
    | .reducePoolSize => .consumed rest

/-- The counter update `check_in` performs before taking the lock
(`src/pool/inner_pool.rs` lines 58-63): a returned connection (one with a
checkout stamp) decrements `in_flight_connections`
(`notify_checked_in_returned_connection`, line 164), a new one increments
`pool_size` (`notify_checked_in_new_connection`, line 168). -/
def InnerPool.checkInBump (s : InnerPool) (m : Managed) : InnerPool :=
  if m.checked_out_at.isSome then
    { s with in_flight := s.in_flight - 1 }
  else
    { s with pool_size := s.pool_size + 1 }

/-- The locked section of `check_in` (`src/pool/inner_pool.rs` lines 65-86):
if no one waits, the handle is pushed onto `idle` unchanged; otherwise the
fulfillment loop runs. A delivered handle increments `in_flight_connections`
(`notify_checked_out`, called from `fulfill`) and goes to a caller; a handle
consumed by a `ReducePoolSize` sentinel is marked for kill and dropped, and
its destructor routes to the `Killed` accounting
(`notify_connection_killed`, line 188: `pool_size` decrement); if no waiter
accepts, the leftover handle is pushed onto `idle`. -/
def InnerPool.checkInLocked (s1 : InnerPool) (m : Managed) (now : Nat) : InnerPool :=
  match s1.waiting with
  | [] => { s1 with idle := s1.idle ++ [m] }
  | _ :: _ =>
    match fulfillLoop m now s1.waiting with
    | .delivered m2 rest =>
      { s1 with waiting := rest, in_flight := s1.in_flight + 1, out := s1.out ++ [m2] }
    | .consumed rest =>
      { s1 with waiting := rest, pool_size := s1.pool_size - 1 }
    | .exhausted m2 =>
      { s1 with waiting := [], idle := s1.idle ++ [m2] }

/-- `InnerPool::check_in` (`src/pool/inner_pool.rs` lines 53-87): the
pre-lock counter update followed by the locked section. -/
def InnerPool.check_in (s : InnerPool) (m : Managed) (now : Nat) : InnerPool :=
  InnerPool.checkInLocked (s.checkInBump m) m now

/-- What `InnerPool::check_out` returns: an immediately ready future with a
handle, an immediately failing future with `ErrorKind::QueueLimitReached`, or
a future awaiting an enqueued oneshot (optionally wrapped in a timeout). -/
inductive CheckOutOutcome
  | immediate (m : Managed)
  | queueLimitReached
  | enqueued
deriving Repr, DecidableEq

/-- `InnerPool::check_out` (`src/pool/inner_pool.rs` lines 89-136). Pops the
idle `Vec` from the back; on success stamps `checked_out_at = Some(now)` and
increments `in_flight_connections` (`notify_checked_out`). Otherwise, when a
`wait_queue_limit` is configured and `waiting.len() > limit` (line 104,
strictly greater), the checkout fails immediately; in every other case a
fresh checkout waiter is pushed at the back of `waiting`. -/
def InnerPool.check_out (s : InnerPool) (now : Nat) : InnerPool × CheckOutOutcome :=
  match vecPop s.idle with
  | some (rest, m) =>
    let m2 := { m with checked_out_at := some now }
    ({ s with idle := rest, in_flight := s.in_flight + 1, out := s.out ++ [m2] },
      .immediate m2)
  | none =>
    match s.wait_queue_limit with
    | some limit =>
      if s.waiting.length > limit then (s, .queueLimitReached)
      else ({ s with waiting := s.waiting ++ [.checkout true now] }, .enqueued)
    | none => ({ s with waiting := s.waiting ++ [.checkout true now] }, .enqueued)

theorem check_out_idle_some (s : InnerPool) (now : Nat) {rest : List Managed}
    {m : Managed} (hp : vecPop s.idle = some (rest, m)) :
    s.check_out now
      = ({ s with
            idle := rest
            in_flight := s.in_flight + 1
            out := s.out ++ [{ m with checked_out_at := some now }] },
        .immediate { m with checked_out_at := some now }) := by
  unfold InnerPool.check_out
  rw [hp]

theorem check_out_limit_hit (s : InnerPool) (now : Nat) {limit : Nat}
    (hp : vecPop s.idle = none) (hq : s.wait_queue_limit = some limit)
    (hlen : s.waiting.length > limit) :
    s.check_out now = (s, .queueLimitReached) := by
  unfold InnerPool.check_out
  rw [hp, hq]
  simp [hlen]

theorem check_out_enqueue_some (s : InnerPool) (now : Nat) {limit : Nat}
    (hp : vecPop s.idle = none) (hq : s.wait_queue_limit = some limit)
    (hlen : ¬ s.waiting.length > limit) :
    s.check_out now
      = ({ s with waiting := s.waiting ++ [.checkout true now] }, .enqueued) := by
  unfold InnerPool.check_out
  rw [hp, hq]
  simp [hlen]

theorem check_out_enqueue_none (s : InnerPool) (now : Nat)
    (hp : vecPop s.idle = none) (hq : s.wait_queue_limit = none) :
    s.check_out now
      = ({ s with waiting := s.waiting ++ [.checkout true now] }, .enqueued) := by
  unfold InnerPool.check_out
  rw [hp, hq]

/-- `InnerPool::remove_conn` (`src/pool/inner_pool.rs` lines 147-155). If an
idle handle exists it is popped and marked for kill; its destructor routes to
the `Killed` accounting, decrementing `pool_size`
(`notify_connection_killed`). Otherwise a `ReducePoolSize` sentinel is
enqueued. -/
def InnerPool.remove_conn (s : InnerPool) : InnerPool :=
  match vecPop s.idle with
  | some (rest, _m) => { s with idle := rest, pool_size := s.pool_size - 1 }
  | none => { s with waiting := s.waiting ++ [.reducePoolSize] }

/-- The operations a linearisation of the pool can perform, including the
handle destructions driven by `Managed::drop` (`src/pool/mod.rs` lines
369-395). `checkInReturned i` is the destructor of the caller-held handle
`out[i]` with its value present (the `Alive` route); `dropDefective i` is the
destructor of `out[i]` after the caller took its value (the `Dropped` route:
`notify_connection_dropped`, decrementing both `pool_size` and
`in_flight_connections`); `checkInFresh` is the creation loop delivering a
fresh handle; `abandonWaiter i` is the caller of an enqueued checkout
dropping its receiver. -/
inductive Op
  | checkOut (now : Nat)
  | checkInReturned (i : Nat) (now : Nat)
  | checkInFresh (createdAt : Nat) (now : Nat)
  | dropDefective (i : Nat)
  | removeConn
  | abandonWaiter (i : Nat)
deriving Repr, DecidableEq

/-- One linearised operation. Operations whose precondition fails (an index
that names no caller-held handle or waiter) leave the state unchanged. -/
def InnerPool.apply (s : InnerPool) (op : Op) : InnerPool :=
  match op with
  | .checkOut now => (s.check_out now).1
  | .checkInReturned i now =>
    match s.out.get? i with
    | some m => InnerPool.check_in { s with out := s.out.eraseIdx i } m now
    | none => s
  | .checkInFresh createdAt now => s.check_in (Managed.fresh createdAt) now
  | .dropDefective i =>
    match s.out.get? i with
    | some _ =>
      { s with out := s.out.eraseIdx i
               pool_size := s.pool_size - 1
               in_flight := s.in_flight - 1 }
    | none => s
  | .removeConn => s.remove_conn
  | .abandonWaiter i =>
    match s.waiting.get? i with
    | some w => { s with waiting := s.waiting.set i w.abandon }
    | none => s

/-- The freshly constructed, empty inner pool (`InnerPool::new`,
`src/pool/inner_pool.rs` lines 36-51). -/
def InnerPool.init (limit : Option Nat) : InnerPool :=
  { idle := []
    waiting := []
    pool_size := 0
    in_flight := 0
    wait_queue_limit := limit
    out := [] }

/-- The state after a sequence of linearised operations from the empty pool. -/
def InnerPool.run (limit : Option Nat) (ops : List Op) : InnerPool :=
  ops.foldl InnerPool.apply (InnerPool.init limit)

/-- The inductive invariant: `in_flight_connections` counts the caller-held
handles, `pool_size` counts idle plus caller-held handles, and every
caller-held handle is stamped with a checkout time. -/
def Inv (s : InnerPool) : Prop :=
  s.in_flight = (s.out.length : Int) ∧
  s.pool_size = (s.idle.length : Int) + (s.out.length : Int) ∧
  ∀ m ∈ s.out, m.checked_out_at.isSome = true

theorem vecPop_length {α : Type} {xs rest : List α} {x : α}
    (h : vecPop xs = some (rest, x)) : xs.length = rest.length + 1 := by
  unfold vecPop at h
  cases hl : xs.getLast? with
  | none => rw [hl] at h; exact absurd h (by simp)
  | some y =>
    rw [hl] at h
    have hne : xs ≠ [] := by
      intro he
      rw [he] at hl
      simp at hl
    simp only [Option.some.injEq, Prod.mk.injEq] at h
    obtain ⟨hr, _⟩ := h
    rw [← hr, List.length_dropLast]
    have : 0 < xs.length := List.length_pos.mpr hne
    omega

theorem fulfillLoop_delivered_stamped (now : Nat) :
    ∀ (ws : List Waiting) (m m2 : Managed) (rest : List Waiting),
      fulfillLoop m now ws = .delivered m2 rest → m2.checked_out_at = some now := by
  intro ws
  induction ws with
  | nil =>
    intro m m2 rest h
    simp [fulfillLoop] at h
  | cons w tail ih =>
    intro m m2 rest h
    cases w with
    | checkout alive t =>
      cases alive with
      | true =>
        simp [fulfillLoop] at h
        rw [← h.1]
      | false =>
        simp [fulfillLoop] at h
        exact ih _ _ _ h
    | reducePoolSize =>
      simp [fulfillLoop] at h

theorem checkInLocked_inv (s1 : InnerPool) (m : Managed) (now : Nat)
    (hif : s1.in_flight = (s1.out.length : Int))
    (hps : s1.pool_size = (s1.idle.length : Int) + (s1.out.length : Int) + 1)
    (h3 : ∀ m' ∈ s1.out, m'.checked_out_at.isSome = true) :
    Inv (s1.checkInLocked m now) := by
  unfold InnerPool.checkInLocked
  cases hw : s1.waiting with
  | nil =>
    refine ⟨hif, ?_, h3⟩
    show s1.pool_size = (((s1.idle ++ [m]).length : Nat) : Int) + (s1.out.length : Int)
    simp only [List.length_append, List.length_cons, List.length_nil]
    omega
  | cons w tail =>
    cases hf : fulfillLoop m now (w :: tail) with
    | delivered m2 rest =>
      refine ⟨?_, ?_, ?_⟩
      · show s1.in_flight + 1 = (((s1.out ++ [m2]).length : Nat) : Int)
        simp only [List.length_append, List.length_cons, List.length_nil]
        omega
      · show s1.pool_size = (s1.idle.length : Int) + (((s1.out ++ [m2]).length : Nat) : Int)
        simp only [List.length_append, List.length_cons, List.length_nil]
        omega
      · show ∀ m' ∈ s1.out ++ [m2], m'.checked_out_at.isSome = true
        intro m' hm'
        rcases List.mem_append.mp hm' with hm' | hm'
        · exact h3 m' hm'
        · rw [List.mem_singleton.mp hm', fulfillLoop_delivered_stamped now _ _ _ _ hf]
          rfl
    | consumed rest =>
      refine ⟨hif, ?_, h3⟩
      show s1.pool_size - 1 = (s1.idle.length : Int) + (s1.out.length : Int)
      omega
    | exhausted m2 =>
      refine ⟨hif, ?_, h3⟩
      show s1.pool_size = (((s1.idle ++ [m2]).length : Nat) : Int) + (s1.out.length : Int)
      simp only [List.length_append, List.length_cons, List.length_nil]
      omega

theorem checkInBump_fields (s : InnerPool) (m : Managed) :
    (s.checkInBump m).idle = s.idle ∧ (s.checkInBump m).waiting = s.waiting ∧
    (s.checkInBump m).out = s.out ∧
    (s.checkInBump m).in_flight
      = s.in_flight - (if m.checked_out_at.isSome then 1 else 0) ∧
    (s.checkInBump m).pool_size
      = s.pool_size + (if m.checked_out_at.isSome then 0 else 1) := by
  by_cases hm : m.checked_out_at.isSome <;>
    simp [InnerPool.checkInBump, hm]

theorem check_in_inv (s : InnerPool) (m : Managed) (now : Nat)
    (h1 : s.in_flight = (s.out.length : Int) +
          (if m.checked_out_at.isSome then 1 else 0))
    (h2 : s.pool_size = (s.idle.length : Int) + (s.out.length : Int) +
          (if m.checked_out_at.isSome then 1 else 0))
    (h3 : ∀ m' ∈ s.out, m'.checked_out_at.isSome = true) :
    Inv (s.check_in m now) := by
  unfold InnerPool.check_in
  obtain ⟨hi, hw, ho, hf, hp⟩ := checkInBump_fields s m
  apply checkInLocked_inv
  · rw [hf, ho, h1]
    by_cases hm : m.checked_out_at.isSome <;> simp [hm]
  · rw [hp, ho, hi, h2]
    by_cases hm : m.checked_out_at.isSome
    · simp [hm]
    · simp [hm]
  · rw [ho]
    exact h3

theorem apply_inv (s : InnerPool) (op : Op) (h : Inv s) : Inv (s.apply op) := by
  obtain ⟨h1, h2, h3⟩ := h
  cases op with
  | checkOut now =>
    simp only [InnerPool.apply]
    cases hp : vecPop s.idle with
    | none =>
      cases hq : s.wait_queue_limit with
      | none =>
        rw [check_out_enqueue_none s now hp hq]
        exact ⟨h1, h2, h3⟩
      | some limit =>
        by_cases hlen : s.waiting.length > limit
        · rw [check_out_limit_hit s now hp hq hlen]
          exact ⟨h1, h2, h3⟩
        · rw [check_out_enqueue_some s now hp hq hlen]
          exact ⟨h1, h2, h3⟩
    | some p =>
      obtain ⟨rest, m⟩ := p
      rw [check_out_idle_some s now hp]
      have hlen := vecPop_length hp
      refine ⟨?_, ?_, ?_⟩
      · show s.in_flight + 1
          = (((s.out ++ [{ m with checked_out_at := some now }]).length : Nat) : Int)
        simp only [List.length_append, List.length_cons, List.length_nil]
        omega
      · show s.pool_size = (rest.length : Int)
          + (((s.out ++ [{ m with checked_out_at := some now }]).length : Nat) : Int)
        simp only [List.length_append, List.length_cons, List.length_nil]
        omega
      · show ∀ m' ∈ s.out ++ [{ m with checked_out_at := some now }],
            m'.checked_out_at.isSome = true
        intro m' hm'
        rcases List.mem_append.mp hm' with hm' | hm'
        · exact h3 m' hm'
        · rw [List.mem_singleton.mp hm']
          rfl
  | checkInReturned i now =>
    simp only [InnerPool.apply]
    cases hg : s.out.get? i with
    | none => exact ⟨h1, h2, h3⟩
    | some m =>
      have hi : i < s.out.length := by
        by_contra hge
        rw [List.get?_eq_none.mpr (by omega)] at hg
        exact absurd hg (by simp)
      have hmem : m ∈ s.out := List.get?_mem hg
      have hm : m.checked_out_at.isSome = true := h3 m hmem
      have hlen : (s.out.eraseIdx i).length = s.out.length - 1 := by
        rw [List.length_eraseIdx]
        simp [hi]
      apply check_in_inv
      · show s.in_flight = ((s.out.eraseIdx i).length : Int)
          + (if m.checked_out_at.isSome then 1 else 0)
        rw [hlen, hm, if_pos rfl]
        omega
      · show s.pool_size = (s.idle.length : Int) + ((s.out.eraseIdx i).length : Int)
          + (if m.checked_out_at.isSome then 1 else 0)
        rw [hlen, hm, if_pos rfl]
        omega
      · show ∀ m' ∈ s.out.eraseIdx i, m'.checked_out_at.isSome = true
        intro m' hm'
        exact h3 m' (List.eraseIdx_subset _ _ hm')
  | checkInFresh createdAt now =>
    simp only [InnerPool.apply]
    apply check_in_inv
    · simpa [Managed.fresh] using h1
    · simpa [Managed.fresh] using h2
    · exact h3
  | dropDefective i =>
    simp only [InnerPool.apply]
    cases hg : s.out.get? i with
    | none => exact ⟨h1, h2, h3⟩
    | some m =>
      have hi : i < s.out.length := by
        by_contra hge
        rw [List.get?_eq_none.mpr (by omega)] at hg
        exact absurd hg (by simp)
      have hlen : (s.out.eraseIdx i).length = s.out.length - 1 := by
        rw [List.length_eraseIdx]
        simp [hi]
      refine ⟨?_, ?_, ?_⟩
      · show s.in_flight - 1 = ((s.out.eraseIdx i).length : Int)
        rw [hlen]
        omega
      · show s.pool_size - 1 = (s.idle.length : Int) + ((s.out.eraseIdx i).length : Int)
        rw [hlen]
        omega
      · show ∀ m' ∈ s.out.eraseIdx i, m'.checked_out_at.isSome = true
        intro m' hm'
        exact h3 m' (List.eraseIdx_subset _ _ hm')
  | removeConn =>
    simp only [InnerPool.apply]
    unfold InnerPool.remove_conn
    cases hp : vecPop s.idle with
    | none => exact ⟨h1, h2, h3⟩
    | some p =>
      obtain ⟨rest, m⟩ := p
      have hlen := vecPop_length hp
      refine ⟨h1, ?_, h3⟩
      show s.pool_size - 1 = (rest.length : Int) + (s.out.length : Int)
      omega
  | abandonWaiter i =>
    simp only [InnerPool.apply]
    cases hg : s.waiting.get? i with
    | none => exact ⟨h1, h2, h3⟩
    | some w => exact ⟨h1, h2, h3⟩

theorem foldl_inv (ops : List Op) :
    ∀ s : InnerPool, Inv s → Inv (ops.foldl InnerPool.apply s) := by
  induction ops with
  | nil => intro s h; exact h
  | cons op tail ih =>
    intro s h
    exact ih _ (apply_inv s op h)

theorem inv_run (limit : Option Nat) (ops : List Op) : Inv (InnerPool.run limit ops) := by
  apply foldl_inv
  exact ⟨rfl, rfl, by intro m hm; simp [InnerPool.init] at hm⟩

/-- C1: starting from an empty pool, every sequence of linearised inner-pool
operations (a successful `check_out` pop, `check_in` of a returned or fresh
handle, destruction of a killed or dropped handle, `remove_conn`, and
abandonment of enqueued waiters) preserves the invariant that the length of
the idle container plus the `in_flight` counter equals the `pool_size`
counter. -/
theorem conservation_invariant (limit : Option Nat) (ops : List Op) :
    ((InnerPool.run limit ops).idle.length : Int) + (InnerPool.run limit ops).in_flight
      = (InnerPool.run limit ops).pool_size := by
  obtain ⟨h1, h2, h3⟩ := inv_run limit ops
  omega

/-! ### Equational lemmas for the locked section of `check_in` -/

theorem checkInLocked_nil (s1 : InnerPool) (m : Managed) (now : Nat)
    (hw : s1.waiting = []) :
    s1.checkInLocked m now = { s1 with idle := s1.idle ++ [m] } := by
  unfold InnerPool.checkInLocked
  rw [hw]

theorem checkInLocked_delivered (s1 : InnerPool) (m m2 : Managed) (now : Nat)
    (rest : List Waiting) (hne : s1.waiting ≠ [])
    (hf : fulfillLoop m now s1.waiting = .delivered m2 rest) :
    s1.checkInLocked m now
      = { s1 with
            waiting := rest
            in_flight := s1.in_flight + 1
            out := s1.out ++ [m2] } := by
  unfold InnerPool.checkInLocked
  cases hw : s1.waiting with
  | nil => exact absurd hw hne
  | cons w tail =>
    rw [hw] at hf
    rw [hf]

theorem checkInLocked_consumed (s1 : InnerPool) (m : Managed) (now : Nat)
    (rest : List Waiting) (hne : s1.waiting ≠ [])
    (hf : fulfillLoop m now s1.waiting = .consumed rest) :
    s1.checkInLocked m now
      = { s1 with waiting := rest, pool_size := s1.pool_size - 1 } := by
  unfold InnerPool.checkInLocked
  cases hw : s1.waiting with
  | nil => exact absurd hw hne
  | cons w tail =>
    rw [hw] at hf
    rw [hf]

theorem checkInLocked_exhausted (s1 : InnerPool) (m m2 : Managed) (now : Nat)
    (hne : s1.waiting ≠ [])
    (hf : fulfillLoop m now s1.waiting = .exhausted m2) :
    s1.checkInLocked m now = { s1 with waiting := [], idle := s1.idle ++ [m2] } := by
  unfold InnerPool.checkInLocked
  cases hw : s1.waiting with
  | nil => exact absurd hw hne
  | cons w tail =>
    rw [hw] at hf
    rw [hf]

/-! ### How the fulfillment loop scans the waiter queue -/

theorem fulfillLoop_skips_dead_front (now : Nat) :
    ∀ (pre ws : List Waiting) (m : Managed), pre ≠ [] →
      (∀ w ∈ pre, w.isDeadCheckout = true) →
      fulfillLoop m now (pre ++ ws)
        = fulfillLoop { m with checked_out_at := none } now ws := by
  intro pre
  induction pre with
  | nil => intro ws m h; exact absurd rfl h
  | cons w tail ih =>
    intro ws m _ hdead
    have hw : w.isDeadCheckout = true := hdead w (by simp)
    cases w with
    | checkout alive t =>
      cases alive with
      | false =>
        show fulfillLoop { m with checked_out_at := none } now (tail ++ ws) = _
        by_cases ht : tail = []
        · rw [ht]
          rfl
        · exact ih ws { m with checked_out_at := none } ht
            (fun w hwm => hdead w (by simp [hwm]))
      | true => simp [Waiting.isDeadCheckout] at hw
    | reducePoolSize => simp [Waiting.isDeadCheckout] at hw

theorem fulfillLoop_all_dead (now : Nat) :
    ∀ (ws : List Waiting) (m : Managed), ws ≠ [] →
      (∀ w ∈ ws, w.isDeadCheckout = true) →
      fulfillLoop m now ws = .exhausted { m with checked_out_at := none } := by
  intro ws
  induction ws with
  | nil => intro m h; exact absurd rfl h
  | cons w tail ih =>
    intro m _ hdead
    have hw : w.isDeadCheckout = true := hdead w (by simp)
    cases w with
    | checkout alive t =>
      cases alive with
      | false =>
        show fulfillLoop { m with checked_out_at := none } now tail = _
        by_cases ht : tail = []
        · rw [ht]
          rfl
        · exact ih { m with checked_out_at := none } ht
            (fun w hwm => hdead w (by simp [hwm]))
      | true => simp [Waiting.isDeadCheckout] at hw
    | reducePoolSize => simp [Waiting.isDeadCheckout] at hw

/-! ### C2 — the reservation (wait queue) limit -/

/-- C2 counterexample: with wait queue limit 0, an empty idle container and
an empty waiter queue — so the number of enqueued waiters, 0, is at least
the limit — the claim predicts a checkout that fails immediately and
enqueues no waiter; the code instead enqueues a waiter (the check at
`src/pool/inner_pool.rs` line 104 is `waiting.len() > limit`, not `>=`),
making the queue longer than the limit. -/
theorem check_out_at_limit_still_enqueues :
    ((InnerPool.init (some 0)).check_out 0).2 = CheckOutOutcome.enqueued ∧
    ((InnerPool.init (some 0)).check_out 0).1.waiting.length = 1 := by
  constructor <;> rfl

/-- C2 (amended): for a `check_out` on a pool whose wait queue (reservation)
limit is `l` and whose idle container is empty, the returned future fails
immediately (with the `QueueLimitReached` error kind) if and only if the
number of enqueued waiters strictly exceeds `l`; in that case no waiter is
enqueued and the state is unchanged; consequently a `check_out` call never
grows the waiter queue beyond `l + 1` entries. -/
theorem check_out_queue_limit (s : InnerPool) (now : Nat) (l : Nat)
    (hidle : s.idle = []) (hlim : s.wait_queue_limit = some l) :
    ((s.check_out now).2 = CheckOutOutcome.queueLimitReached ↔ s.waiting.length > l) ∧
    ((s.check_out now).2 = CheckOutOutcome.queueLimitReached → (s.check_out now).1 = s) ∧
    (s.check_out now).1.waiting.length ≤ max s.waiting.length (l + 1) := by
  have hp : vecPop s.idle = none := by rw [hidle]; rfl
  by_cases hlen : s.waiting.length > l
  · rw [check_out_limit_hit s now hp hlim hlen]
    exact ⟨by simp [hlen], fun _ => rfl, le_max_left _ _⟩
  · rw [check_out_enqueue_some s now hp hlim hlen]
    refine ⟨by simp [hlen], by simp, ?_⟩
    show (s.waiting ++ [Waiting.checkout true now]).length ≤ max s.waiting.length (l + 1)
    simp only [List.length_append, List.length_cons, List.length_nil]
    omega

/-- Witness for the amended C2 theorem at the empty pool with limit 0. -/
theorem check_out_queue_limit_witness :
    (((InnerPool.init (some 0)).check_out 0).2 = CheckOutOutcome.queueLimitReached ↔
      (InnerPool.init (some 0)).waiting.length > 0) ∧
    (((InnerPool.init (some 0)).check_out 0).2 = CheckOutOutcome.queueLimitReached →
      ((InnerPool.init (some 0)).check_out 0).1 = InnerPool.init (some 0)) ∧
    ((InnerPool.init (some 0)).check_out 0).1.waiting.length
      ≤ max (InnerPool.init (some 0)).waiting.length (0 + 1) :=
  check_out_queue_limit (InnerPool.init (some 0)) 0 0 rfl rfl

/-! ### C3 — routing of a checked-in alive handle -/

/-- C3 counterexample: a `ReducePoolSize` sentinel is waiting (enqueued by a
`remove_conn` that found no idle connection); checking the only handle back
in delivers it to no checkout waiter and does not push it onto idle — the
handle is consumed, marked for kill and destroyed (`pool_size` drops to 0),
contradicting the claim that the handle is never discarded. -/
theorem check_in_reduce_discards_handle :
    (InnerPool.run none
        [.checkInFresh 0 0, .checkOut 1, .removeConn, .checkInReturned 0 2]).idle = [] ∧
    (InnerPool.run none
        [.checkInFresh 0 0, .checkOut 1, .removeConn, .checkInReturned 0 2]).out = [] ∧
    (InnerPool.run none
        [.checkInFresh 0 0, .checkOut 1, .removeConn, .checkInReturned 0 2]).pool_size = 0 := by
  refine ⟨rfl, rfl, rfl⟩

/-- C3 (amended): for every `check_in` of an alive handle: if the waiter
queue is empty the handle is pushed onto idle with its fields unchanged.
Otherwise waiters are popped strictly from the front in FIFO enqueue order;
checkout waiters whose receiver was dropped are discarded; the first
remaining waiter decides the route: an alive `Checkout` waiter receives the
handle (stamped with the current instant), while a `ReducePoolSize` sentinel
consumes it (the handle is marked for kill and destroyed, decrementing
`pool_size`); if every waiter was a dead checkout waiter the handle is
pushed onto idle with a cleared checkout stamp. -/
theorem check_in_routing (s : InnerPool) (m : Managed) (now : Nat) :
    (s.waiting = [] →
        (s.check_in m now).idle = s.idle ++ [m] ∧
        (s.check_in m now).waiting = [] ∧
        (s.check_in m now).out = s.out) ∧
    (∀ pre t post, s.waiting = pre ++ Waiting.checkout true t :: post →
        (∀ w ∈ pre, w.isDeadCheckout = true) →
        (s.check_in m now).out = s.out ++ [{ m with checked_out_at := some now }] ∧
        (s.check_in m now).waiting = post ∧
        (s.check_in m now).idle = s.idle) ∧
    (∀ pre post, s.waiting = pre ++ Waiting.reducePoolSize :: post →
        (∀ w ∈ pre, w.isDeadCheckout = true) →
        (s.check_in m now).idle = s.idle ∧
        (s.check_in m now).waiting = post ∧
        (s.check_in m now).out = s.out ∧
        (s.check_in m now).pool_size = (s.checkInBump m).pool_size - 1) ∧
    (s.waiting ≠ [] → (∀ w ∈ s.waiting, w.isDeadCheckout = true) →
        (s.check_in m now).idle = s.idle ++ [{ m with checked_out_at := none }] ∧
        (s.check_in m now).waiting = [] ∧
        (s.check_in m now).out = s.out) := by
  obtain ⟨hbi, hbw, hbo, _, _⟩ := checkInBump_fields s m
  unfold InnerPool.check_in
  refine ⟨?_, ?_, ?_, ?_⟩
  · intro hw
    rw [checkInLocked_nil _ m now (hbw.trans hw)]
    exact ⟨by rw [hbi], by rw [hbw, hw], by rw [hbo]⟩
  · intro pre t post hsplit hdead
    have hne : (s.checkInBump m).waiting ≠ [] := by
      rw [hbw, hsplit]
      exact List.append_ne_nil_of_right_ne_nil _ (by simp)
    have hf : fulfillLoop m now (s.checkInBump m).waiting
        = .delivered { m with checked_out_at := some now } post := by
      rw [hbw, hsplit]
      by_cases hpre : pre = []
      · rw [hpre]
        rfl
      · rw [fulfillLoop_skips_dead_front now pre _ m hpre hdead]
        rfl
    rw [checkInLocked_delivered _ m _ now post hne hf]
    exact ⟨by rw [hbo], rfl, by rw [hbi]⟩
  · intro pre post hsplit hdead
    have hne : (s.checkInBump m).waiting ≠ [] := by
      rw [hbw, hsplit]
      exact List.append_ne_nil_of_right_ne_nil _ (by simp)
    have hf : fulfillLoop m now (s.checkInBump m).waiting = .consumed post := by
      rw [hbw, hsplit]
      by_cases hpre : pre = []
      · rw [hpre]
        rfl
      · rw [fulfillLoop_skips_dead_front now pre _ m hpre hdead]
        rfl
    rw [checkInLocked_consumed _ m now post hne hf]
    exact ⟨by rw [hbi], rfl, by rw [hbo], rfl⟩
  · intro hne hdead
    have hne1 : (s.checkInBump m).waiting ≠ [] := by rw [hbw]; exact hne
    have hf : fulfillLoop m now (s.checkInBump m).waiting
        = .exhausted { m with checked_out_at := none } := by
      rw [hbw]
      exact fulfillLoop_all_dead now s.waiting m hne hdead
    rw [checkInLocked_exhausted _ m _ now hne1 hf]
    exact ⟨by rw [hbi], rfl, by rw [hbo]⟩

/-- Witness for the amended C3 theorem: concrete queues exercising each
route — delivery past a dead waiter, consumption by a sentinel past a dead
waiter, the empty queue, and an all-dead queue. -/
theorem check_in_routing_witness :
    (({ InnerPool.init none with
          waiting := [Waiting.checkout false 0, Waiting.checkout true 1]
        : InnerPool }.check_in (Managed.fresh 0) 5).out
      = [] ++ [{ Managed.fresh 0 with checked_out_at := some 5 }]) ∧
    (({ InnerPool.init none with
          waiting := [Waiting.checkout false 0, Waiting.reducePoolSize]
        : InnerPool }.check_in (Managed.fresh 0) 5).pool_size
      = ({ InnerPool.init none with
            waiting := [Waiting.checkout false 0, Waiting.reducePoolSize]
          : InnerPool }.checkInBump (Managed.fresh 0)).pool_size - 1) ∧
    ((InnerPool.init none).check_in (Managed.fresh 0) 5).idle
      = [] ++ [Managed.fresh 0] ∧
    (({ InnerPool.init none with waiting := [Waiting.checkout false 0]
        : InnerPool }.check_in (Managed.fresh 0) 5).idle
      = [] ++ [{ Managed.fresh 0 with checked_out_at := none }]) := by
  refine ⟨?_, ?_, ?_, ?_⟩
  · exact ((check_in_routing _ (Managed.fresh 0) 5).2.1
      [Waiting.checkout false 0] 1 [] rfl (by decide)).1
  · exact ((check_in_routing _ (Managed.fresh 0) 5).2.2.1
      [Waiting.checkout false 0] [] rfl (by decide)).2.2.2
  · exact ((check_in_routing _ (Managed.fresh 0) 5).1 rfl).1
  · exact ((check_in_routing _ (Managed.fresh 0) 5).2.2.2 (by decide) (by decide)).1

theorem fulfillLoop_exhausted_cleared (now : Nat) :
    ∀ (ws : List Waiting) (m m2 : Managed), ws ≠ [] →
      fulfillLoop m now ws = .exhausted m2 → m2.checked_out_at = none := by
  intro ws
  induction ws with
  | nil => intro m m2 h; exact absurd rfl h
  | cons w tail ih =>
    intro m m2 _ hf
    cases w with
    | checkout alive t =>
      cases alive with
      | true => simp [fulfillLoop] at hf
      | false =>
        by_cases ht : tail = []
        · rw [ht] at hf
          have h2 : FulfillOutcome.exhausted { m with checked_out_at := none }
              = FulfillOutcome.exhausted m2 := hf
          rw [← (FulfillOutcome.exhausted.injEq _ _).mp h2]
        · exact ih { m with checked_out_at := none } m2 ht hf
    | reducePoolSize => simp [fulfillLoop] at hf

/-! ### C5 — the checkout stamp discipline -/

/-- C5 counterexample: a fresh connection is checked out at instant 1 and
returned at instant 2 while no waiter is enqueued; `check_in` pushes it onto
`idle` with `checked_out_at` still `Some(1)` — the claim that every handle
stored in the idle container has `checked_out_at` cleared is false. -/
theorem idle_handle_keeps_stamp :
    (InnerPool.run none [.checkInFresh 0 0, .checkOut 1, .checkInReturned 0 2]).idle
      = [{ created_at := 0, checked_out_at := some 1, value := true,
           marked_for_kill := false }] ∧
    ¬ ∀ m ∈ (InnerPool.run none
        [.checkInFresh 0 0, .checkOut 1, .checkInReturned 0 2]).idle,
        m.checked_out_at = none := by
  refine ⟨rfl, by decide⟩

/-- C5 (amended): `checked_out_at` is set to the current instant exactly
when a handle is handed to a caller — by a `check_out` popping it from idle
or by a successful waiter fulfillment. A handle checked in while no waiter
is enqueued, however, is pushed onto idle with `checked_out_at` unchanged
(still carrying the stamp of its last checkout); only a handle that enters
idle after failed fulfillment attempts has the stamp cleared. -/
theorem checked_out_at_discipline (s : InnerPool) (m : Managed) (now : Nat) :
    (∀ rest mp, vecPop s.idle = some (rest, mp) →
        (s.check_out now).2
          = CheckOutOutcome.immediate { mp with checked_out_at := some now }) ∧
    (∀ m2 rest, fulfillLoop m now s.waiting = .delivered m2 rest →
        m2.checked_out_at = some now) ∧
    (∀ m2, s.waiting ≠ [] → fulfillLoop m now s.waiting = .exhausted m2 →
        m2.checked_out_at = none) ∧
    (s.waiting = [] → (s.check_in m now).idle = s.idle ++ [m]) := by
  refine ⟨?_, ?_, ?_, ?_⟩
  · intro rest mp hp
    rw [check_out_idle_some s now hp]
  · intro m2 rest hf
    exact fulfillLoop_delivered_stamped now _ _ _ _ hf
  · intro m2 hne hf
    exact fulfillLoop_exhausted_cleared now s.waiting m m2 hne hf
  · intro hw
    obtain ⟨hbi, hbw, _, _, _⟩ := checkInBump_fields s m
    unfold InnerPool.check_in
    rw [checkInLocked_nil _ m now (hbw.trans hw)]
    rw [hbi]


/-- Witness for the amended C5 theorem: a pool with one idle handle
exercises the pop-stamping; pools with a single alive or dead checkout
waiter exercise the delivered stamp and the cleared stamp; the empty-queue
pool exercises the unchanged push onto idle. -/
theorem checked_out_at_discipline_witness :
    (({ InnerPool.init none with idle := [Managed.fresh 7]
        : InnerPool }.check_out 5).2
      = CheckOutOutcome.immediate { Managed.fresh 7 with checked_out_at := some 5 }) ∧
    ({ Managed.fresh 7 with checked_out_at := some 5 } : Managed).checked_out_at
      = some 5 ∧
    ({ Managed.fresh 7 with checked_out_at := none } : Managed).checked_out_at
      = none ∧
    ((InnerPool.init none).check_in (Managed.fresh 7) 5).idle
      = [] ++ [Managed.fresh 7] := by
  refine ⟨?_, ?_, ?_, ?_⟩
  · exact (checked_out_at_discipline
      { InnerPool.init none with idle := [Managed.fresh 7] } (Managed.fresh 7) 5).1
      [] (Managed.fresh 7) rfl
  · exact (checked_out_at_discipline
      { InnerPool.init none with waiting := [Waiting.checkout true 0] }
      (Managed.fresh 7) 5).2.1 _ [] rfl
  · exact (checked_out_at_discipline
      { InnerPool.init none with waiting := [Waiting.checkout false 0] }
      (Managed.fresh 7) 5).2.2.1 _ (by decide) rfl
  · exact (checked_out_at_discipline (InnerPool.init none) (Managed.fresh 7) 5).2.2.2 rfl

/-! ### C4 — round-robin checkout across sibling pools
(`src/pools/pool_per_node/inner.rs`) -/

/-- The modulus of the `usize` round-robin counter. -/
def USIZE : Nat := 2 ^ 64

/-- The retry loop of `Inner::check_out_explicit_timeout`
(`src/pools/pool_per_node/inner.rs` lines 109-125). The sibling pools are
summarised by an oracle `outcomes`, where `outcomes[i]` says whether
awaiting `pools[i].check_out(timeout)` succeeds. `attempts_left` starts at
`pools.len()` and counts down; each iteration tries index
`(count + attempts_left) % pools.len()`, returning the index of the first
successful sibling, and the loop fails with `NoConnection` when
`attempts_left` reaches 0. -/
def checkOutLoop (outcomes : List Bool) (count : Nat) : Nat → Except ErrorKind Nat
  | 0 => .error .noConnection
  | attemptsLeft + 1 =>
    if outcomes.getD ((count + (attemptsLeft + 1)) % outcomes.length) false then
      .ok ((count + (attemptsLeft + 1)) % outcomes.length)
    else checkOutLoop outcomes count attemptsLeft

/-- `Inner::check_out_explicit_timeout` (lines 97-126): fails with `NoPool`
when there are no sibling pools; otherwise reads and increments the shared
round-robin counter (`fetch_add(1)` returns the previous value and wraps at
`2 ^ 64`) and runs the retry loop over all siblings. Returns the checkout
result (the index of the serving pool on success) together with the new
counter value. -/
def check_out_explicit_timeout (outcomes : List Bool) (count : Nat) :
    Except ErrorKind Nat × Nat :=
  if outcomes.isEmpty then (.error .noPool, count)
  else (checkOutLoop outcomes count outcomes.length, (count + 1) % USIZE)

def foundToResult : Option Nat → Except ErrorKind Nat
  | some i => .ok i
  | none => .error .noConnection

/-- The checkout order asserted by the claim: for
`attempt = 0, 1, ..., len - 1` in ascending order try
`pools[(k + attempt) mod len]`, returning the first success. Written from
the claim wording, for comparison against the embedded code. -/
def claimAscendingOrder (outcomes : List Bool) (count : Nat) : Except ErrorKind Nat :=
  foundToResult ((List.range outcomes.length).map
      (fun a => (count + a) % outcomes.length)
    |>.find? (fun i => outcomes.getD i false))

/-- The order the code actually uses: the descending index sequence
`(count + len - attempt) mod len` for `attempt = 0, 1, ..., len - 1`. -/
def descendingOrder (outcomes : List Bool) (count : Nat) : Except ErrorKind Nat :=
  foundToResult ((List.range outcomes.length).map
      (fun a => (count + outcomes.length - a) % outcomes.length)
    |>.find? (fun i => outcomes.getD i false))

theorem range_succ_map_head {α : Type} (f : Nat → α) (k : Nat) :
    (List.range (k + 1)).map f = f 0 :: (List.range k).map (fun a => f (a + 1)) := by
  rw [List.range_succ_eq_map]
  simp [List.map_map, Function.comp]

theorem checkOutLoop_eq_find (outcomes : List Bool) (count : Nat) :
    ∀ k : Nat,
      checkOutLoop outcomes count k
        = foundToResult (((List.range k).map
              (fun a => (count + k - a) % outcomes.length)).find?
            (fun i => outcomes.getD i false)) := by
  intro k
  induction k with
  | zero => rfl
  | succ k ih =>
    rw [range_succ_map_head (fun a => (count + (k + 1) - a) % outcomes.length) k]
    have harg : (fun a => (count + (k + 1) - (a + 1)) % outcomes.length)
        = (fun a => (count + k - a) % outcomes.length) := by
      funext a
      congr 1
      omega
    rw [harg]
    have hhead : count + (k + 1) - 0 = count + (k + 1) := by omega
    rw [hhead]
    by_cases hp : outcomes.getD ((count + (k + 1)) % outcomes.length) false = true
    · simp only [List.find?_cons, hp]
      show checkOutLoop outcomes count (k + 1) = _
      unfold checkOutLoop
      rw [if_pos hp]
      rfl
    · have hp2 : outcomes.getD ((count + (k + 1)) % outcomes.length) false = false :=
        Bool.eq_false_iff.mpr hp
      simp only [List.find?_cons, hp2]
      show checkOutLoop outcomes count (k + 1) = _
      unfold checkOutLoop
      rw [if_neg hp]
      exact ih

theorem checkOutLoop_ne_noPool (outcomes : List Bool) (count : Nat) :
    ∀ k : Nat, checkOutLoop outcomes count k ≠ .error .noPool := by
  intro k
  induction k with
  | zero => intro h; exact absurd (Except.error.inj h) (by simp)
  | succ k ih =>
    unfold checkOutLoop
    by_cases hp : outcomes.getD ((count + (k + 1)) % outcomes.length) false = true
    · rw [if_pos hp]
      intro h
      exact absurd h (by simp)
    · rw [if_neg hp]
      exact ih

theorem desc_tries_cover (len count j : Nat) (hlen : 0 < len) (hj : j < len) :
    ∃ a < len, (count + len - a) % len = j := by
  refine ⟨(count + len - j) % len, Nat.mod_lt _ hlen, ?_⟩
  have hq := Nat.div_add_mod (count + len - j) len
  have h1 : count + len - (count + len - j) % len
      = j + len * ((count + len - j) / len) := by omega
  rw [h1, Nat.add_mul_mod_self_left]
  exact Nat.mod_eq_of_lt hj

/-- C4 counterexample: three sibling pools, pool 0 failing, pools 1 and 2
healthy, round-robin counter 0. The claim's ascending order (try 0, then 1,
then 2) would return pool 1; the code counts `attempts_left` *down* from 3,
trying indices (0 + 3) % 3 = 0, (0 + 2) % 3 = 2, (0 + 1) % 3 = 1, and
returns pool 2. -/
theorem round_robin_order_differs :
    (check_out_explicit_timeout [false, true, true] 0).1 = .ok 2 ∧
    claimAscendingOrder [false, true, true] 0 = .ok 1 ∧
    (check_out_explicit_timeout [false, true, true] 0).1
      ≠ claimAscendingOrder [false, true, true] 0 := by
  refine ⟨rfl, rfl, ?_⟩
  intro h
  exact absurd (Except.ok.inj h) (by decide)

/-- C4 (amended): multi-node `check_out` fails with `NoPool` if and only if
the pool vector is empty; otherwise it advances the shared round-robin
counter exactly once (a wrapping `fetch_add(1)` whose previous value is
`k`), tries the siblings in the order `pools[(k + len - attempt) mod len]`
for `attempt = 0, ..., len - 1` — i.e. starting at `k mod len` and stepping
downwards — returns the first success, and fails with `NoConnection`
exactly when all `len(pools)` siblings fail. -/
theorem round_robin_checkout (outcomes : List Bool) (count : Nat) :
    ((check_out_explicit_timeout outcomes count).1 = .error .noPool ↔ outcomes = []) ∧
    (outcomes ≠ [] →
      (check_out_explicit_timeout outcomes count).2 = (count + 1) % USIZE) ∧
    (outcomes ≠ [] →
      (check_out_explicit_timeout outcomes count).1 = descendingOrder outcomes count) ∧
    (outcomes ≠ [] →
      ((check_out_explicit_timeout outcomes count).1 = .error .noConnection ↔
        ∀ i < outcomes.length, outcomes.getD i false = false)) := by
  by_cases hout : outcomes = []
  · subst hout
    refine ⟨by simp [check_out_explicit_timeout], ?_, ?_, ?_⟩ <;>
      intro h <;> exact absurd rfl h
  · have hne : ¬ outcomes.isEmpty := by
      cases outcomes with
      | nil => exact absurd rfl hout
      | cons b tail => simp
    have hrun : check_out_explicit_timeout outcomes count
        = (checkOutLoop outcomes count outcomes.length, (count + 1) % USIZE) := by
      unfold check_out_explicit_timeout
      rw [if_neg hne]
    have hdesc : (check_out_explicit_timeout outcomes count).1
        = descendingOrder outcomes count := by
      rw [hrun]
      exact checkOutLoop_eq_find outcomes count outcomes.length
    refine ⟨?_, fun _ => by rw [hrun], fun _ => hdesc, fun _ => ?_⟩
    · constructor
      · intro h
        rw [hrun] at h
        exact absurd h (checkOutLoop_ne_noPool outcomes count outcomes.length)
      · intro h
        exact absurd h hout
    · rw [hdesc]
      unfold descendingOrder
      have hlen : 0 < outcomes.length := List.length_pos.mpr hout
      cases hfind : ((List.range outcomes.length).map
          (fun a => (count + outcomes.length - a) % outcomes.length)).find?
          (fun i => outcomes.getD i false) with
      | some v =>
        have hpv0 := List.find?_some hfind
        have hpv : outcomes.getD v false = true := hpv0
        have hvmem := List.mem_of_find?_eq_some hfind
        have hvlt : v < outcomes.length := by
          obtain ⟨a, _, hav⟩ := List.mem_map.mp hvmem
          rw [← hav]
          exact Nat.mod_lt _ hlen
        constructor
        · intro h
          exact absurd h (by simp [foundToResult])
        · intro hall
          have hfalse := hall v hvlt
          rw [hpv] at hfalse
          exact absurd hfalse (by simp)
      | none =>
        rw [List.find?_eq_none] at hfind
        constructor
        · intro _ i hi
          obtain ⟨a, ha, haj⟩ := desc_tries_cover outcomes.length count i hlen hi
          have hmem : i ∈ (List.range outcomes.length).map
              (fun a => (count + outcomes.length - a) % outcomes.length) := by
            rw [← haj]
            exact List.mem_map_of_mem _ (List.mem_range.mpr ha)
          have h6 := hfind i hmem
          exact Bool.eq_false_iff.mpr h6
        · intro _
          rfl


/-- Witness for the amended C4 theorem on concrete sibling oracles. -/
theorem round_robin_checkout_witness :
    (check_out_explicit_timeout [false, true, true] 5).1
      = descendingOrder [false, true, true] 5 ∧
    (check_out_explicit_timeout [false, true, true] 5).2 = (5 + 1) % USIZE ∧
    ((check_out_explicit_timeout [false, false] 3).1 = .error .noConnection ↔
      ∀ i < ([false, false] : List Bool).length,
        ([false, false] : List Bool).getD i false = false) :=
  ⟨(round_robin_checkout [false, true, true] 5).2.2.1 (by decide),
   (round_robin_checkout [false, true, true] 5).2.1 (by decide),
   (round_robin_checkout [false, false] 3).2.2.2 (by decide)⟩

/-! ### C6 and C8 — construction of the pools
(`src/pools/pool_per_node/inner.rs`, `src/pools/shared_pool/mod.rs`,
`src/pools/single_pool/mod.rs`) -/

/-- The initialization failures relevant to the embedded constructors, each
standing for the `InitializationError` message the source produces. -/
inductive InitError
  | zeroMultiplier
  | zeroPoolSize
  | nothingToConnectTo
  | wrongNodeCount (found : Nat)
deriving Repr, DecidableEq

/-- The configuration fields consumed by `Inner::new`
(`src/pools/pool_per_node/inner.rs`). -/
structure PerNodeConfig where
  desired_pool_size : Nat
  reservation_limit : Option Nat
  pool_per_node_multiplier : Nat
  connect_to_nodes : List String
deriving Repr, DecidableEq

/-- The per-pool settings that `Inner::new` passes to each created
`PoolInternal` (the `PoolConfig` fields the claim is about, plus the URI the
connection factory for that pool targets). -/
structure PoolSettings where
  uri : String
  desired_pool_size : Nat
  reservation_limit : Option Nat
deriving Repr, DecidableEq

/-- The config adjustment in `Inner::new` (lines 44-56): when the multiplier
is not 1, `reservation_limit` (if set) becomes `limit / multiplier + 1` and
`desired_pool_size` becomes `desired_pool_size / multiplier + 1` — integer
division plus one, not rounding up. -/
def adjustConfig (c : PerNodeConfig) : PerNodeConfig :=
  if c.pool_per_node_multiplier ≠ 1 then
    { c with
        reservation_limit
          := c.reservation_limit.map (fun l => l / c.pool_per_node_multiplier + 1)
        desired_pool_size
          := c.desired_pool_size / c.pool_per_node_multiplier + 1 }
  else c

/-- The pool-creation loop of `Inner::new` (lines 58-84): for each round of
the multiplier and each configured node, one `PoolInternal` with the
adjusted settings. -/
def createdPools (c : PerNodeConfig) : List PoolSettings :=
  let c2 := adjustConfig c
  (List.range c.pool_per_node_multiplier).flatMap (fun _ =>
    c2.connect_to_nodes.map (fun n =>
      { uri := n
        desired_pool_size := c2.desired_pool_size
        reservation_limit := c2.reservation_limit }))

/-- The result of `Inner::new`: the created pools and the distinct node list
kept as `connected_to`. -/
structure PerNodeInner where
  pools : List PoolSettings
  connected_to : List String
deriving Repr, DecidableEq

/-- `Inner::new` (`src/pools/pool_per_node/inner.rs` lines 26-95): rejects a
zero multiplier (lines 36-40), otherwise builds the pools. The connection
factories are modelled as always constructible. -/
def Inner.new (c : PerNodeConfig) : Except InitError PerNodeInner :=
  if c.pool_per_node_multiplier = 0 then .error .zeroMultiplier
  else .ok { pools := createdPools c, connected_to := c.connect_to_nodes }

theorem bind_const_length {α : Type} (L : List α) :
    ∀ n : Nat, ((List.range n).flatMap (fun _ => L)).length = n * L.length := by
  intro n
  induction n with
  | zero => simp
  | succ n ih =>
    rw [List.range_succ, List.flatMap_append, List.length_append, ih]
    simp [Nat.succ_mul]

theorem bind_const_countP {α : Type} (L : List α) (p : α → Bool) :
    ∀ n : Nat, ((List.range n).flatMap (fun _ => L)).countP p = n * L.countP p := by
  intro n
  induction n with
  | zero => simp
  | succ n ih =>
    rw [List.range_succ, List.flatMap_append, List.countP_append, ih]
    simp [Nat.succ_mul]

theorem mem_bind_const {α : Type} {L : List α} {x : α} {n : Nat}
    (h : x ∈ (List.range n).flatMap (fun _ => L)) : x ∈ L := by
  obtain ⟨a, _, hx⟩ := List.mem_flatMap.mp h
  exact hx

/-- A concrete multi-node configuration: multiplier 2,
`desired_pool_size = 4`, `reservation_limit = Some 4`, one URI. -/
def evenConfig : PerNodeConfig :=
  { desired_pool_size := 4
    reservation_limit := some 4
    pool_per_node_multiplier := 2
    connect_to_nodes := ["redisA"] }

/-- C6 counterexample: multiplier 2 with `desired_pool_size = 4` and
`reservation_limit = Some 4` over one URI: each created pool is configured
with pool size 3 and limit 3, while dividing by 2 and rounding up gives 2 —
the claim's "divided by m rounded up" is wrong whenever m divides the
value. -/
theorem multiplier_not_round_up :
    (adjustConfig evenConfig).desired_pool_size = 3 ∧
    (4 + 2 - 1) / 2 = 2 ∧
    (createdPools evenConfig).length = 2 ∧
    ∀ p ∈ createdPools evenConfig,
      p.desired_pool_size ≠ (4 + 2 - 1) / 2 ∧
      p.reservation_limit ≠ some ((4 + 2 - 1) / 2) := by
  refine ⟨rfl, rfl, rfl, by decide⟩

/-- C6 (amended): with `pool_per_node_multiplier = m > 1`, `Inner::new`
creates exactly `m` inner pools per configured URI occurrence (and
`m * len(nodes)` pools in total), and every created pool is configured with
`desired_pool_size = size / m + 1` (floor division plus one — equal to the
rounded-up quotient only when `m` does not divide `size`) and, when a
reservation limit `l` is set, with `reservation_limit = l / m + 1`. -/
theorem multiplier_config (c : PerNodeConfig) (hm : c.pool_per_node_multiplier > 1) :
    (createdPools c).length = c.pool_per_node_multiplier * c.connect_to_nodes.length ∧
    (∀ u : String,
      (createdPools c).countP (fun p => p.uri == u)
        = c.pool_per_node_multiplier * c.connect_to_nodes.countP (fun n => n == u)) ∧
    (∀ p ∈ createdPools c,
      p.desired_pool_size = c.desired_pool_size / c.pool_per_node_multiplier + 1 ∧
      p.reservation_limit
        = c.reservation_limit.map (fun l => l / c.pool_per_node_multiplier + 1)) := by
  have hne : c.pool_per_node_multiplier ≠ 1 := by omega
  have hadj : adjustConfig c
      = { c with
            reservation_limit
              := c.reservation_limit.map (fun l => l / c.pool_per_node_multiplier + 1)
            desired_pool_size
              := c.desired_pool_size / c.pool_per_node_multiplier + 1 } := by
    unfold adjustConfig
    rw [if_pos hne]
  refine ⟨?_, ?_, ?_⟩
  · unfold createdPools
    rw [bind_const_length]
    rw [hadj]
    simp
  · intro u
    unfold createdPools
    rw [bind_const_countP]
    rw [hadj]
    simp only [List.countP_map]
    rfl
  · intro p hp
    unfold createdPools at hp
    have hp2 := mem_bind_const hp
    obtain ⟨n, _, hpn⟩ := List.mem_map.mp hp2
    rw [← hpn, hadj]
    exact ⟨rfl, rfl⟩

/-- A concrete multi-node configuration: multiplier 3, size 7, limit 10,
two URIs. -/
def tripleConfig : PerNodeConfig :=
  { desired_pool_size := 7
    reservation_limit := some 10
    pool_per_node_multiplier := 3
    connect_to_nodes := ["redisA", "redisB"] }

/-- Witness for the amended C6 theorem at `tripleConfig`. -/
theorem multiplier_config_witness :
    (createdPools tripleConfig).length = 3 * 2 ∧
    (createdPools tripleConfig).countP (fun p => p.uri == "redisA") = 3 * 1 := by
  have h := multiplier_config tripleConfig (by decide)
  refine ⟨?_, ?_⟩
  · rw [h.1]
    rfl
  · rw [h.2.1 "redisA"]
    rfl

/-! ### C7 — the connection-creation loop (`src/pool/mod.rs` lines 258-323) -/

/-- How one run of `create_new_managed` can end: a fresh managed handle
built at the given attempt, abortion because the weak pool reference no
longer upgrades (`PoolIsGoneError`, lines 316-320), or exhaustion of the
step budget of this finite model (the Rust loop has no budget and keeps
retrying forever). There is no constructor carrying a factory failure: the
loop never ends with one, so no factory error can reach a checkout
caller. -/
inductive CreateOutcome
  | created (attempt : Nat)
  | poolGone (attempt : Nat)
  | outOfFuel (attempt : Nat)
deriving Repr, DecidableEq

/-- The `future::loop_fn` of `create_new_managed` (`src/pool/mod.rs` lines
268-321), driven by oracles: `upgradeOk n` says whether the weak pool
reference upgrades when attempt `n` starts, and `factoryOk n` whether
`factory.create_connection()` succeeds at attempt `n`. Each iteration: if
the upgrade fails the loop errors with `PoolIsGoneError`; on factory
success it breaks with a fresh `Managed`; on factory failure it notifies
the observer, consults `backoff attempt` — `Some d` sleeps `d` before
continuing (the timer is modelled as always firing), `None` continues
immediately — and retries as attempt `attempt + 1`. The consulted backoffs
are also returned as the sleep trace, one entry per failed attempt. -/
def create_new_managed (factoryOk upgradeOk : Nat → Bool)
    (backoff : Nat → Option Nat) : Nat → Nat → CreateOutcome × List (Option Nat)
  | 0, attempt => (.outOfFuel attempt, [])
  | fuel + 1, attempt =>
    if upgradeOk attempt then
      if factoryOk attempt then (.created attempt, [])
      else
        let r := create_new_managed factoryOk upgradeOk backoff fuel (attempt + 1)
        (r.1, backoff attempt :: r.2)
    else (.poolGone attempt, [])

theorem create_new_managed_succeeds (factoryOk upgradeOk : Nat → Bool)
    (backoff : Nat → Option Nat) :
    ∀ (k start fuel : Nat),
      (∀ n, start ≤ n → n ≤ start + k → upgradeOk n = true) →
      (∀ n, start ≤ n → n < start + k → factoryOk n = false) →
      factoryOk (start + k) = true → k < fuel →
      create_new_managed factoryOk upgradeOk backoff fuel start
        = (.created (start + k),
           (List.range k).map (fun j => backoff (start + j))) := by
  intro k
  induction k with
  | zero =>
    intro start fuel hupg hfail hsucc hfuel
    cases fuel with
    | zero => omega
    | succ f =>
      have h1 : upgradeOk start = true := hupg start (by omega) (by omega)
      have h2 : factoryOk start = true := by
        have := hsucc
        rwa [Nat.add_zero] at this
      simp [create_new_managed, h1, h2]
  | succ k ih =>
    intro start fuel hupg hfail hsucc hfuel
    cases fuel with
    | zero => omega
    | succ f =>
      have h1 : upgradeOk start = true := hupg start (by omega) (by omega)
      have h2 : factoryOk start = false := hfail start (by omega) (by omega)
      have hsucc1 : factoryOk (start + 1 + k) = true := by
        have he : start + 1 + k = start + (k + 1) := by omega
        rw [he]
        exact hsucc
      have hrec := ih (start + 1) f
        (fun n hn1 hn2 => hupg n (by omega) (by omega))
        (fun n hn1 hn2 => hfail n (by omega) (by omega))
        hsucc1 (by omega)
      have houtcome : CreateOutcome.created (start + 1 + k)
          = CreateOutcome.created (start + (k + 1)) := by
        congr 1
        omega
      have hfun : (fun j => backoff (start + 1 + j))
          = (fun j => backoff (start + (j + 1))) := by
        funext j
        congr 1
        omega
      have htrace : (backoff start ::
            (List.range k).map (fun j => backoff (start + 1 + j)))
          = (List.range (k + 1)).map (fun j => backoff (start + j)) := by
        rw [range_succ_map_head (fun j => backoff (start + j)) k, hfun]
        simp
      simp only [create_new_managed, h1, h2, if_true, Bool.false_eq_true,
        if_false, hrec]
      rw [← houtcome, ← htrace]
  -- the simp above reduces the iteration and rewrites the recursive call

theorem create_new_managed_poolGone (factoryOk upgradeOk : Nat → Bool)
    (backoff : Nat → Option Nat) :
    ∀ (fuel attempt a : Nat) (tr : List (Option Nat)),
      create_new_managed factoryOk upgradeOk backoff fuel attempt
        = (.poolGone a, tr) → upgradeOk a = false := by
  intro fuel
  induction fuel with
  | zero =>
    intro attempt a tr h
    simp [create_new_managed] at h
  | succ f ih =>
    intro attempt a tr h
    by_cases hu : upgradeOk attempt = true
    · by_cases hf : factoryOk attempt = true
      · simp [create_new_managed, hu, hf] at h
      · have hf2 : factoryOk attempt = false := Bool.eq_false_iff.mpr hf
        simp only [create_new_managed, hu, hf2, if_true, Bool.false_eq_true,
          if_false] at h
        obtain ⟨h1, h2⟩ := Prod.mk.injEq .. ▸ h
        exact ih (attempt + 1) a _ (Prod.ext h1 rfl)
    · have hu2 : upgradeOk attempt = false := Bool.eq_false_iff.mpr hu
      simp only [create_new_managed, hu2, Bool.false_eq_true, if_false] at h
      obtain ⟨h1, h2⟩ := Prod.mk.injEq .. ▸ h
      rw [← CreateOutcome.poolGone.inj h1]
      exact hu2

theorem create_new_managed_created (factoryOk upgradeOk : Nat → Bool)
    (backoff : Nat → Option Nat) :
    ∀ (fuel attempt a : Nat) (tr : List (Option Nat)),
      create_new_managed factoryOk upgradeOk backoff fuel attempt
        = (.created a, tr) → factoryOk a = true ∧ upgradeOk a = true := by
  intro fuel
  induction fuel with
  | zero =>
    intro attempt a tr h
    simp [create_new_managed] at h
  | succ f ih =>
    intro attempt a tr h
    by_cases hu : upgradeOk attempt = true
    · by_cases hf : factoryOk attempt = true
      · simp only [create_new_managed, hu, hf, if_true] at h
        obtain ⟨h1, h2⟩ := Prod.mk.injEq .. ▸ h
        rw [← CreateOutcome.created.inj h1]
        exact ⟨hf, hu⟩
      · have hf2 : factoryOk attempt = false := Bool.eq_false_iff.mpr hf
        simp only [create_new_managed, hu, hf2, if_true, Bool.false_eq_true,
          if_false] at h
        obtain ⟨h1, h2⟩ := Prod.mk.injEq .. ▸ h
        exact ih (attempt + 1) a _ (Prod.ext h1 rfl)
    · have hu2 : upgradeOk attempt = false := Bool.eq_false_iff.mpr hu
      simp [create_new_managed, hu2] at h

/-- C7: the creation loop recovers every factory failure locally — on a
failure at attempt `n` it consults the backoff strategy (`Some d` means
sleep `d`, `None` means retry immediately) and retries as attempt `n + 1`;
after `k` consecutive failures followed by a success the loop ends with a
created handle at attempt `start + k`, having consulted
`backoff start, ..., backoff (start + k - 1)` in order; the loop never ends
with a factory error: it ends created only where the factory succeeded, and
ends `PoolIsGone` only where the weak pool reference failed to upgrade. -/
theorem creation_loop_retries (factoryOk upgradeOk : Nat → Bool)
    (backoff : Nat → Option Nat) (k start : Nat)
    (hupg : ∀ n, start ≤ n → n ≤ start + k → upgradeOk n = true)
    (hfail : ∀ n, start ≤ n → n < start + k → factoryOk n = false)
    (hsucc : factoryOk (start + k) = true) :
    (∀ fuel, k < fuel →
      create_new_managed factoryOk upgradeOk backoff fuel start
        = (.created (start + k),
           (List.range k).map (fun j => backoff (start + j)))) ∧
    (∀ fuel attempt a tr,
      create_new_managed factoryOk upgradeOk backoff fuel attempt
        = (.poolGone a, tr) → upgradeOk a = false) ∧
    (∀ fuel attempt a tr,
      create_new_managed factoryOk upgradeOk backoff fuel attempt
        = (.created a, tr) → factoryOk a = true ∧ upgradeOk a = true) :=
  ⟨fun fuel hfuel => create_new_managed_succeeds factoryOk upgradeOk backoff
      k start fuel hupg hfail hsucc hfuel,
   fun fuel attempt a tr h =>
      create_new_managed_poolGone factoryOk upgradeOk backoff fuel attempt a tr h,
   fun fuel attempt a tr h =>
      create_new_managed_created factoryOk upgradeOk backoff fuel attempt a tr h⟩

/-- Witness for C7: the factory fails at attempts 1 and 2 and succeeds at
attempt 3; the strategy yields a delay at attempt 1 and none at attempt 2;
the loop creates the connection at attempt 3 with sleep trace
`[Some 10, None]`. -/
theorem creation_loop_retries_witness :
    create_new_managed (fun n => decide (n = 3)) (fun _ => true)
        (fun n => if n = 1 then some 10 else none) 5 1
      = (.created (1 + 2),
         (List.range 2).map (fun j =>
           (fun n => if n = 1 then some 10 else none) (1 + j))) :=
  (creation_loop_retries (fun n => decide (n = 3)) (fun _ => true)
      (fun n => if n = 1 then some 10 else none) 2 1
      (fun n _ _ => rfl)
      (fun n hn1 hn2 => by
        have : n = 1 ∨ n = 2 := by omega
        rcases this with h | h <;> rw [h] <;> rfl)
      (by rfl)).1 5 (by omega)


/-! ### C8 — initialization checks of the constructors and the builder -/

/-- The configuration fields consumed by `SharedPool::new`. -/
structure SharedConfig where
  desired_pool_size : Nat
  connect_to_nodes : List String
deriving Repr, DecidableEq

/-- `SharedPool::new` (`src/pools/shared_pool/mod.rs` lines 30-79): rejects
`desired_pool_size == 0` (lines 41-45) and an empty node list (lines
60-66); the connection factory is modelled as always constructible and the
resulting pool is summarised by the node list it connects to. -/
def SharedPool.new (c : SharedConfig) : Except InitError (List String) :=
  if c.desired_pool_size = 0 then .error .zeroPoolSize
  else if c.connect_to_nodes.isEmpty then .error .nothingToConnectTo
  else .ok c.connect_to_nodes

/-- `SinglePool::new` (`src/pools/single_pool/mod.rs` lines 31-81): rejects
`desired_pool_size == 0` (lines 42-46), requires exactly one connection
string (lines 56-69, `connect_to_nodes.pop().unwrap()` of a one-element
vector) and otherwise builds the pool for that node. -/
def SinglePool.new (size : Nat) (nodes : List String) : Except InitError String :=
  if size = 0 then .error .zeroPoolSize
  else
    match nodes with
    | [n] => .ok n
    | _ => .error (.wrongNodeCount nodes.length)

/-- The configuration a builder accumulates before creating a pool. -/
structure BuilderConfig where
  desired_pool_size : Nat
  reservation_limit : Option Nat
  pool_per_node_multiplier : Nat
  connect_to_nodes : List String
  pool_per_node : Bool
deriving Repr, DecidableEq

/-- The pool structure a successful build produces. -/
inductive BuiltPool
  | shared (nodes : List String)
  | perNode (inner : PerNodeInner)
deriving Repr, DecidableEq

/-- Modelled from the spec: the builder of `config.rs`, which is not among
the sources under `src/` (only its callers are). Per the specification
(section 7): "Initialization errors (parse failures, zero pool size, empty
node list, `pool_per_node_multiplier == 0`) are reported synchronously from
the builder and prevent pool creation." The builder therefore checks these
three conditions synchronously and only then dispatches to the embedded
constructors (`Inner.new` for the pool-per-node strategy, `SharedPool.new`
otherwise). -/
def Builder.finish (c : BuilderConfig) : Except InitError BuiltPool :=
  if c.desired_pool_size = 0 then .error .zeroPoolSize
  else if c.connect_to_nodes.isEmpty then .error .nothingToConnectTo
  else if c.pool_per_node_multiplier = 0 then .error .zeroMultiplier
  else if c.pool_per_node then
    (Inner.new
      { desired_pool_size := c.desired_pool_size
        reservation_limit := c.reservation_limit
        pool_per_node_multiplier := c.pool_per_node_multiplier
        connect_to_nodes := c.connect_to_nodes }).map .perNode
  else
    (SharedPool.new
      { desired_pool_size := c.desired_pool_size
        connect_to_nodes := c.connect_to_nodes }).map .shared

/-- C8: pool construction reports a synchronous initialization error and
creates no pool whenever the desired pool size is 0, the node list is
empty, or the pool-per-node multiplier is 0; the constructors under `src/`
perform the matching checks themselves (`SharedPool::new` and
`SinglePool::new` reject a zero pool size, `SharedPool::new` rejects an
empty node list, `SinglePool::new` rejects any node count other than one,
and `Inner::new` rejects a zero multiplier). -/
theorem construction_rejects_bad_config (c : BuilderConfig)
    (h : c.desired_pool_size = 0 ∨ c.connect_to_nodes = [] ∨
         c.pool_per_node_multiplier = 0) :
    (∃ e, Builder.finish c = .error e) ∧
    (c.desired_pool_size = 0 →
      SharedPool.new
          { desired_pool_size := c.desired_pool_size
            connect_to_nodes := c.connect_to_nodes } = .error .zeroPoolSize ∧
      SinglePool.new c.desired_pool_size c.connect_to_nodes
        = .error .zeroPoolSize) ∧
    (c.connect_to_nodes = [] → c.desired_pool_size ≠ 0 →
      SharedPool.new
          { desired_pool_size := c.desired_pool_size
            connect_to_nodes := c.connect_to_nodes }
        = .error .nothingToConnectTo) ∧
    (c.pool_per_node_multiplier = 0 →
      Inner.new
          { desired_pool_size := c.desired_pool_size
            reservation_limit := c.reservation_limit
            pool_per_node_multiplier := c.pool_per_node_multiplier
            connect_to_nodes := c.connect_to_nodes } = .error .zeroMultiplier) := by
  refine ⟨?_, ?_, ?_, ?_⟩
  · unfold Builder.finish
    by_cases h1 : c.desired_pool_size = 0
    · exact ⟨.zeroPoolSize, by rw [if_pos h1]⟩
    · rw [if_neg h1]
      by_cases h2 : c.connect_to_nodes.isEmpty
      · exact ⟨.nothingToConnectTo, by rw [if_pos h2]⟩
      · rw [if_neg h2]
        have h3 : c.pool_per_node_multiplier = 0 := by
          rcases h with h | h | h
          · exact absurd h h1
          · exact absurd (by rw [h]; rfl) h2
          · exact h
        exact ⟨.zeroMultiplier, by rw [if_pos h3]⟩
  · intro h1
    constructor
    · unfold SharedPool.new
      rw [if_pos h1]
    · unfold SinglePool.new
      rw [if_pos h1]
  · intro h2 h1
    unfold SharedPool.new
    rw [if_neg h1, if_pos (by rw [h2]; rfl)]
  · intro h3
    unfold Inner.new
    rw [if_pos h3]

/-- Witness for C8 with a zero pool size, and separately a zero multiplier
with an empty node list. -/
theorem construction_rejects_bad_config_witness :
    (∃ e, Builder.finish
      { desired_pool_size := 0, reservation_limit := none
        pool_per_node_multiplier := 1, connect_to_nodes := ["redisA"]
        pool_per_node := false } = .error e) ∧
    (∃ e, Builder.finish
      { desired_pool_size := 5, reservation_limit := none
        pool_per_node_multiplier := 0, connect_to_nodes := []
        pool_per_node := true } = .error e) :=
  ⟨(construction_rejects_bad_config _ (Or.inl rfl)).1,
   (construction_rejects_bad_config _ (Or.inr (Or.inl rfl))).1⟩

/-! ### C9 — handle destructors under the pool mutex -/

/-- The events of interest for the lock discipline: acquisitions and
releases of the `core` mutex, and runs of the `Managed` destructor. -/
inductive LockEvent
  | lockCore
  | unlockCore
  | dropManagedHandle
deriving Repr, DecidableEq

/-- The event trace of `InnerPool::remove_conn`
(`src/pool/inner_pool.rs` lines 147-155), transcribed from the source in
program order. `core` is locked on line 148 and the `MutexGuard` lives to
the end of the function. When the idle vector is non-empty, the popped
handle is bound by the `if let Some(mut managed)` pattern (line 149) and is
marked for kill; Rust drops `managed` at the closing brace of the `if let`
block (line 151) — before the guard bound earlier in the enclosing scope is
dropped. The destructor of a marked handle whose pool is still alive calls
`check_in(CheckInParcel::Killed(..))` (`src/pool/mod.rs` lines 371-373),
and `check_in` acquires the same `core` mutex (`src/pool/inner_pool.rs`
line 65). -/
def remove_conn_events (idleNonEmpty : Bool) : List LockEvent :=
  if idleNonEmpty then [.lockCore, .dropManagedHandle, .unlockCore]
  else [.lockCore, .unlockCore]

/-- The event trace of `InnerPool::check_in` when the waiter popped from the
front of the queue is a `ReducePoolSize` sentinel: `Waiting::fulfill`
(`src/pool/inner_pool.rs` lines 253-257) takes the managed handle by value,
marks it for kill and returns `None`; the handle is dropped at the end of
`fulfill`, which runs inside the `while let` loop of `check_in` (lines
74-81) while the `core` lock acquired on line 65 is held — despite the
comment on lines 55-56 ("Do not let any Managed get dropped in here because
core might get locked twice!"). -/
def check_in_reduce_events : List LockEvent :=
  [.lockCore, .dropManagedHandle, .unlockCore]

/-- Whether some `Managed` destructor runs while the mutex is held, given
the starting lock depth. -/
def dropsWhileLocked : Nat → List LockEvent → Bool
  | _, [] => false
  | depth, .lockCore :: rest => dropsWhileLocked (depth + 1) rest
  | depth, .unlockCore :: rest => dropsWhileLocked (depth - 1) rest
  | depth, .dropManagedHandle :: rest =>
      decide (0 < depth) || dropsWhileLocked depth rest

/-- C9: the claim (and the deadlock-freedom rule of the spec) says the
inner-pool mutex is never held while a `ManagedHandle` is dropped, and in
particular that `remove_conn` and `check_in` release the lock before the
destructor of a popped or consumed handle runs. The code violates this: in
`remove_conn` the popped, marked handle is dropped inside the `if let`
block while the `MutexGuard` is still alive, and in `check_in` the handle
consumed by a `ReducePoolSize` sentinel is dropped inside `fulfill` under
the held lock — in both traces the destructor runs at positive lock
depth. -/
theorem drop_runs_under_lock :
    dropsWhileLocked 0 (remove_conn_events true) = true ∧
    dropsWhileLocked 0 check_in_reduce_events = true := by
  refine ⟨rfl, rfl⟩

/-! ### C10 — the `RedisPool` facade (`src/lib.rs` lines 94-155) -/

/-- `PingState` (`src/lib.rs` lines 158-162); the failure cause is not
modelled. -/
inductive PingState
  | ok
  | failed
deriving Repr, DecidableEq

/-- `Ping` (`src/lib.rs` lines 164-169). -/
structure Ping where
  latency : Nat
  uri : Option String
  state : PingState

/-- The behaviour of a `SharedPool` as the facade consumes it: the two
checkout entry points, the single-node ping (a future of one `Ping` that
cannot fail except with `()`), and the connected node list. -/
structure SharedPoolApi where
  check_outR : Except ErrorKind Managed
  check_out_explicit_timeoutR : Option Nat → Except ErrorKind Managed
  pingR : Nat → Except Unit Ping
  connected_toR : List String

/-- The behaviour of a `PoolPerNode` as the facade consumes it. -/
structure PoolPerNodeApi where
  check_outR : Except ErrorKind Managed
  check_out_explicit_timeoutR : Option Nat → Except ErrorKind Managed
  pingR : Nat → Except Unit (List Ping)
  connected_toR : List String

/-- `RedisPoolFlavour` (`src/lib.rs` lines 95-99). -/
inductive RedisPoolFlavour
  | empty
  | shared (pool : SharedPoolApi)
  | perNode (pool : PoolPerNodeApi)

/-- `RedisPool::check_out` (`src/lib.rs` lines 116-124): dispatches to the
flavour; `Empty` returns a future that immediately fails with `NoPool`. -/
def RedisPool.check_out : RedisPoolFlavour → Except ErrorKind Managed
  | .shared pool => pool.check_outR
  | .perNode pool => pool.check_outR
  | .empty => .error .noPool

/-- `RedisPool::check_out_explicit_timeout` (lines 127-135). -/
def RedisPool.check_out_explicit_timeout :
    RedisPoolFlavour → Option Nat → Except ErrorKind Managed
  | .shared pool, timeout => pool.check_out_explicit_timeoutR timeout
  | .perNode pool, timeout => pool.check_out_explicit_timeoutR timeout
  | .empty, _ => .error .noPool

/-- `RedisPool::ping` (lines 140-147): a shared pool wraps its single ping
in a one-element vector; the `Empty` flavour resolves successfully to an
empty vector. -/
def RedisPool.ping : RedisPoolFlavour → Nat → Except Unit (List Ping)
  | .shared pool, timeout => (pool.pingR timeout).map (fun p => [p])
  | .perNode pool, timeout => pool.pingR timeout
  | .empty, _ => .ok []

/-- `RedisPool::connected_to` (lines 149-155): the `Empty` flavour returns
the empty slice. -/
def RedisPool.connected_to : RedisPoolFlavour → List String
  | .shared pool => pool.connected_toR
  | .perNode pool => pool.connected_toR
  | .empty => []

/-- C10: on the `Empty` facade variant, `ping` resolves successfully to an
empty vector of `Ping` results and `connected_to` returns the empty slice —
neither errors — while both checkout entry points fail with `NoPool`. -/
theorem empty_flavour_facade (timeout : Option Nat) (d : Nat) :
    RedisPool.ping .empty d = .ok ([] : List Ping) ∧
    RedisPool.connected_to .empty = [] ∧
    RedisPool.check_out .empty = .error .noPool ∧
    RedisPool.check_out_explicit_timeout .empty timeout = .error .noPool :=
  ⟨rfl, rfl, rfl, rfl⟩


end Reool
